import Mathlib

/-!
Shallow embedding of `src/github-stats.ts`: the `Queries` request gatherer
(the acquire/release admission primitive, the `queryRest` retry loop, the
`reposOverview` query builder) and the `Stats` aggregator (the `getStats`
pagination and aggregation pass, the language proportion phase, and the
memoizing accessors).  Machine integers are modelled as `Nat`/`Int`; JS
division in the proportion phase is modelled exactly over `ℚ` with an
explicit non-finite marker for `0/0` (NaN); fallible paths return sum types.
-/

set_option autoImplicit false

namespace GithubStats

/-! ## JS truthiness helpers

JavaScript `a || b` treats `undefined`, `null`, the empty string, `0` and
`NaN` as falsy.  The helpers below mirror the uses in the source. -/

/-- JS `a || b` where `a` is an optional string and `b` a string default, as
in `lang.node?.name || 'Other'`: `a` is kept only when present and non-empty. -/
def jsOrStr (a : Option String) (b : String) : String :=
  match a with
  | none => b
  | some s => if s = "" then b else s

/-- JS `a || null` for a nullable string, as in `lang.node?.color || null`:
an empty string collapses to `null`. -/
def jsOrNullStr (a : Option String) : Option String :=
  match a with
  | none => none
  | some s => if s = "" then none else some s

/-- JS `a || b` where both sides are nullable strings, as in
`ownedRepos?.pageInfo?.endCursor || nextOwned`: a missing or empty new cursor
keeps the previous one. -/
def jsOrCursor (a : Option String) (b : Option String) : Option String :=
  match a with
  | none => b
  | some s => if s = "" then b else some s

/-! ## The `queryRest` retry loop (lines 160-250)

One attempt of `Queries.queryRest` observes an HTTP response; on the
non-throwing path a status of 202 releases the slot, waits and retries,
any other status returns `response.data || ` the empty object.  The body is
modelled as `Option Nat`: `none` is a falsy/empty body (so that
`response.data || ` empty-object is the identity on the model), `some n` an
arbitrary decoded payload. -/

/-- An HTTP response observed by one attempt of `queryRest` on the
non-throwing path: status code and decoded body. -/
structure RestResp where
  status : Nat
  data : Option Nat
  deriving Repr, DecidableEq

/-- The `for (let attempt = 0; attempt < maxAttempts; attempt++)` loop of
`queryRest`, restricted to attempts whose response arrives without throwing.
`fuel` is the number of attempts still allowed out of `maxAttempts = 60`,
`attempt` the 0-based counter used by the code.  Returns the decoded payload
(`none` is the empty object), the number of attempts performed, and whether
the attempt budget was exhausted (the `console.warn` soft-failure path at
lines 248-249; exhaustion returns the empty object, it does not throw). -/
def queryRestAux (resp : Nat → RestResp) : Nat → Nat → Option Nat × Nat × Bool
  | 0, _ => (none, 0, true)
  | fuel + 1, attempt =>
    let r := resp attempt
    if r.status = 202 then
      let rest := queryRestAux resp fuel (attempt + 1)
      (rest.1, rest.2.1 + 1, rest.2.2)
    else
      (r.data, 1, false)

/-- `Queries.queryRest` with `maxAttempts = 60`, starting at attempt 0. -/
def queryRest (resp : Nat → RestResp) : Option Nat × Nat × Bool :=
  queryRestAux resp 60 0

theorem queryRestAux_all202 (resp : Nat → RestResp) :
    ∀ fuel a, (∀ i, a ≤ i → i < a + fuel → (resp i).status = 202) →
      queryRestAux resp fuel a = (none, fuel, true) := by
  intro fuel
  induction fuel with
  | zero => intro a _; rfl
  | succ n ih =>
    intro a h
    have ha : (resp a).status = 202 := h a (Nat.le_refl a) (by omega)
    have hrec := ih (a + 1) (fun i h1 h2 => h i (by omega) (by omega))
    simp [queryRestAux, ha, hrec]

theorem queryRestAux_202_run (resp : Nat → RestResp) :
    ∀ K fuel a, K < fuel →
      (∀ i, i < K → (resp (a + i)).status = 202) →
      (resp (a + K)).status = 200 →
      queryRestAux resp fuel a = ((resp (a + K)).data, K + 1, false) := by
  intro K
  induction K with
  | zero =>
    intro fuel a hK h202 h200
    obtain ⟨f, rfl⟩ : ∃ f, fuel = f + 1 := ⟨fuel - 1, by omega⟩
    have : (resp (a + 0)).status = 200 := h200
    simp only [Nat.add_zero] at this
    simp [queryRestAux, this]
  | succ n ih =>
    intro fuel a hK h202 h200
    obtain ⟨f, rfl⟩ : ∃ f, fuel = f + 1 := ⟨fuel - 1, by omega⟩
    have ha : (resp a).status = 202 := by
      have := h202 0 (by omega)
      simpa using this
    have hrec := ih f (a + 1) (by omega)
      (fun i hi => by
        have := h202 (i + 1) (by omega)
        simpa [Nat.add_comm, Nat.add_assoc, Nat.add_left_comm] using this)
      (by
        have : a + 1 + n = a + (n + 1) := by omega
        rw [this]; exact h200)
    have harr : a + 1 + n = a + (n + 1) := by omega
    rw [harr] at hrec
    simp [queryRestAux, ha, hrec]

/-- C4: if the REST endpoint responds HTTP 202 on exactly the first `K`
attempts (`K < 60`) and HTTP 200 on the next attempt, `queryRest` returns the
decoded HTTP-200 payload, performs exactly `K + 1` attempts, and does not hit
the exhaustion path. -/
theorem queryRest_202_then_200 (resp : Nat → RestResp) (K : Nat)
    (hK : K < 60)
    (h202 : ∀ i, i < K → (resp i).status = 202)
    (h200 : (resp K).status = 200) :
    queryRest resp = ((resp K).data, K + 1, false) := by
  have := queryRestAux_202_run resp K 60 0 hK
    (fun i hi => by simpa using h202 i hi) (by simpa using h200)
  simpa [queryRest] using this

/-- Concrete instantiation of `queryRest_202_then_200`: three 202 responses
followed by a 200 carrying payload 7 yield payload 7 after 4 attempts. -/
theorem queryRest_202_then_200_witness :
    queryRest (fun i => if i < 3 then ⟨202, none⟩ else ⟨200, some 7⟩) =
      (some 7, 4, false) := by
  have h := queryRest_202_then_200
    (fun i => if i < 3 then ⟨202, none⟩ else ⟨200, some 7⟩) 3
    (by decide) (by decide) (by decide)
  simpa using h

/-- C5: if the REST endpoint responds HTTP 202 on all 60 attempts,
`queryRest` returns the empty payload after exactly 60 attempts through the
warning path; its result is an ordinary value, not a thrown exception. -/
theorem queryRest_all_202_soft_failure (resp : Nat → RestResp)
    (h : ∀ i, i < 60 → (resp i).status = 202) :
    queryRest resp = (none, 60, true) := by
  have := queryRestAux_all202 resp 60 0 (fun i h1 h2 => h i (by omega))
  simpa [queryRest] using this

/-- Concrete instantiation of `queryRest_all_202_soft_failure` on the
constant-202 endpoint. -/
theorem queryRest_all_202_soft_failure_witness :
    queryRest (fun _ => ⟨202, some 3⟩) = (none, 60, true) :=
  queryRest_all_202_soft_failure (fun _ => ⟨202, some 3⟩) (fun _ _ => rfl)

/-! ## The admission primitive (lines 85-127)

`acquireSemaphore`/`releaseSemaphore` operate on the fields
`activeRequests : number` and `requestQueue : Array of callbacks`.  The
model keeps both exactly as in the class, plus a ghost `holding` list
recording which logical callers currently hold an admitted slot (admitted
and not yet done), which the code itself does not track but the capacity
claim is about. -/

/-- State of the admission primitive: `activeRequests` (an `Int`, since the
code can drive it negative) and `requestQueue` (waiter ids standing for the
queued resume callbacks, in arrival order), plus the ghost `holding` list of
callers currently holding a slot. -/
structure SemState where
  activeRequests : Int
  requestQueue : List Nat
  holding : List Nat
  deriving Repr, DecidableEq

def initSem : SemState := ⟨0, [], []⟩

/-- `acquireSemaphore` (lines 105-117) as invoked by caller `id`: when
`activeRequests < maxConnections` the caller is admitted at once
(`activeRequests++`, resolve), otherwise its resume callback is appended to
`requestQueue`. -/
def acquireSemaphore (maxConnections : Nat) (id : Nat) (s : SemState) : SemState :=
  if s.activeRequests < (maxConnections : Int) then
    ⟨s.activeRequests + 1, s.requestQueue, s.holding ++ [id]⟩
  else
    ⟨s.activeRequests, s.requestQueue ++ [id], s.holding⟩

/-- `releaseSemaphore` (lines 119-127) as called by caller `id`:
`activeRequests--`, then, if a waiter is queued, shift the oldest waiter and
run its callback (which does `activeRequests++` and resumes that waiter).
Ghost bookkeeping: `id` stops holding a slot (a no-op when it holds none, as
with the duplicated release in `queryRest`), the admitted waiter starts
holding one. -/
def releaseSemaphore (id : Nat) (s : SemState) : SemState :=
  let s1 : SemState := ⟨s.activeRequests - 1, s.requestQueue, s.holding.erase id⟩
  match s1.requestQueue with
  | [] => s1
  | w :: rest => ⟨s1.activeRequests + 1, rest, s1.holding ++ [w]⟩

/-- One semaphore operation performed by some logical caller. -/
inductive SemEvent where
  | acquire (id : Nat)
  | release (id : Nat)
  deriving Repr, DecidableEq

def semStep (maxConnections : Nat) (s : SemState) : SemEvent → SemState
  | .acquire id => acquireSemaphore maxConnections id s
  | .release id => releaseSemaphore id s

def runSem (maxConnections : Nat) (evs : List SemEvent) : SemState :=
  evs.foldl (semStep maxConnections) initSem

/-- The semaphore operations performed by one `queryRest` attempt whose
response resolves with HTTP 202: `acquireSemaphore` at line 163,
`releaseSemaphore` at line 190 after the backoff wait, and then the
`finally` block's `releaseSemaphore` at line 245, which runs before
`continue` re-enters the loop — two releases for one acquire. -/
def queryRest202SemOps (id : Nat) : List SemEvent :=
  [.acquire id, .release id, .release id]

/-- C1 failing run: with capacity 1, one `queryRest` attempt by caller 0 that
receives HTTP 202 releases the semaphore twice, driving `activeRequests` to
-1; two fresh callers 1 and 2 are then both admitted immediately, so two
callers hold slots at once while `activeRequests` reads 1. -/
theorem queryRest_202_breaks_capacity :
    (runSem 1 (queryRest202SemOps 0 ++ [.acquire 1, .acquire 2])).holding = [1, 2] ∧
    1 < (runSem 1 (queryRest202SemOps 0 ++ [.acquire 1, .acquire 2])).holding.length ∧
    (runSem 1 (queryRest202SemOps 0)).activeRequests = -1 := by
  refine ⟨?_, ?_, ?_⟩ <;> decide

/-- The actions of one `queryRest` attempt whose response resolves with
status 202, in program order (lines 163-192 plus the `finally` block at
lines 244-246): acquire the slot (line 163), issue the HTTP GET (line 171),
await the backoff delay (line 189), release the semaphore (line 190), and
release again in `finally` (line 245). -/
inductive QRAct where
  | acquireSem
  | httpGet
  | sleepWait
  | releaseSem
  deriving Repr, DecidableEq

def queryRest202TryTrace : List QRAct :=
  [.acquireSem, .httpGet, .sleepWait, .releaseSem, .releaseSem]

/-- The actions that have already run when the backoff wait begins. -/
def beforeWait (t : List QRAct) : List QRAct :=
  t.takeWhile (fun a => a ≠ QRAct.sleepWait)

/-- C2 failing run: in the 202 path of `queryRest`, when the backoff wait
begins the attempt has acquired the slot and performed no release, i.e. the
slot is held during the entire wait; the release only happens after the
wait (line 190 follows the `await` at line 189). -/
theorem queryRest_202_holds_slot_during_wait :
    (beforeWait queryRest202TryTrace).count QRAct.acquireSem = 1 ∧
    (beforeWait queryRest202TryTrace).count QRAct.releaseSem = 0 := by
  exact ⟨by decide, by decide⟩

/-! ## Repository data model (interfaces at lines 21-60)

Fields that the aggregator reads through optional chaining are modelled as
`Option`, matching the defensive accesses in `getStats` rather than the
(stricter) declared TypeScript interfaces. -/

/-- A JS number that may fail to be finite: `none` stands for NaN (or an
infinity), finite values are exact rationals. -/
abbrev JSNum := Option ℚ

/-- `LanguageEdge.node`: `name` and `color` as read via `lang.node?.name`
and `lang.node?.color`. -/
structure LangNode where
  name : Option String
  color : Option String
  deriving Repr, DecidableEq

/-- One entry of `repo.languages.edges`. -/
structure LanguageEdge where
  size : Option Nat
  node : Option LangNode
  deriving Repr, DecidableEq

/-- One repository node of a page: `nameWithOwner`, `stargazers?.totalCount`,
`forkCount`, and `languages?.edges`. -/
structure Repository where
  nameWithOwner : String
  stargazersTotal : Option Nat
  forkCount : Option Nat
  languageEdges : Option (List LanguageEdge)
  deriving Repr, DecidableEq

/-- One value of the `_languages` record (interface `LanguageData`):
cumulative byte `size`, `occurrences`, display `color`, and the `prop`
percentage, absent (`none`) until the proportion phase runs. -/
structure LanguageData where
  size : Nat
  occurrences : Nat
  color : Option String
  prop : Option JSNum
  deriving Repr, DecidableEq

/-- The aggregation state built by `Stats.getStats`: `_repos` (the JS `Set`
in insertion order), `_stargazers`, `_forks`, and `_languages` (the JS
object as an insertion-ordered association list). -/
structure StatsState where
  repos : List String
  stargazers : Nat
  forks : Nat
  languages : List (String × LanguageData)
  deriving Repr, DecidableEq

/-- The state set up at the top of `getStats` (lines 418-421). -/
def initStats : StatsState := ⟨[], 0, 0, []⟩

/-- JS `toLowerCase()` as used at lines 424 and 466, modelled characterwise
over the string's characters (the language names involved are ASCII). -/
def lowerStr (s : String) : String :=
  ⟨s.data.map Char.toLower⟩

/-- Body of the language loop in `getStats` (lines 461-479): a missing node
or falsy name falls back to the literal `'Other'`; an entry whose lowered
name is in the lowered exclusion set is skipped; an existing entry
accumulates `size` and `occurrences`; a new entry records size, occurrence 1
and the display color (`lang.node?.color || null`). -/
def processLang (excludeLangsLower : List String)
    (langs : List (String × LanguageData)) (lang : LanguageEdge) :
    List (String × LanguageData) :=
  let langName := jsOrStr (lang.node.bind (fun n => n.name)) "Other"
  if lowerStr langName ∈ excludeLangsLower then langs
  else if langs.any (fun p => p.1 = langName) then
    langs.map (fun p =>
      if p.1 = langName then
        (p.1, { p.2 with size := p.2.size + lang.size.getD 0,
                         occurrences := p.2.occurrences + 1 })
      else p)
  else
    langs ++ [(langName,
      ⟨lang.size.getD 0, 1, jsOrNullStr (lang.node.bind (fun n => n.color)), none⟩)]

/-- The unguarded part of the repository loop body (lines 457-479): mark the
repository seen, add its star and fork counts, accumulate its languages. -/
def addRepo (excludeLangsLower : List String) (st : StatsState)
    (repo : Repository) : StatsState :=
  { repos := st.repos ++ [repo.nameWithOwner]
    stargazers := st.stargazers + repo.stargazersTotal.getD 0
    forks := st.forks + repo.forkCount.getD 0
    languages := (repo.languageEdges.getD []).foldl
      (processLang excludeLangsLower) st.languages }

/-- Body of the repository loop in `getStats` (lines 449-480): a falsy node
is skipped, a name already seen or present in the repository exclusion set
is skipped, otherwise the repository is accumulated. -/
def processRepo (excludeRepos excludeLangsLower : List String)
    (st : StatsState) (orepo : Option Repository) : StatsState :=
  match orepo with
  | none => st
  | some repo =>
    if repo.nameWithOwner ∈ st.repos ∨ repo.nameWithOwner ∈ excludeRepos then st
    else addRepo excludeLangsLower st repo

/-! ## C6: dedup and exclusion across page boundaries -/

/-- Claim-side device: the subsequence of repositories that the loop counts,
namely the first occurrence of each name not in the exclusion set, relative
to names already `seen`. -/
def countedRepos (excludeRepos : List String) (seen : List String) :
    List (Option Repository) → List Repository
  | [] => []
  | none :: rest => countedRepos excludeRepos seen rest
  | some r :: rest =>
    if r.nameWithOwner ∈ seen ∨ r.nameWithOwner ∈ excludeRepos then
      countedRepos excludeRepos seen rest
    else
      r :: countedRepos excludeRepos (seen ++ [r.nameWithOwner]) rest

/-- Claim-side device: the input with every repository whose name is in the
exclusion set removed. -/
def dropExcluded (excludeRepos : List String) :
    List (Option Repository) → List (Option Repository) :=
  List.filter (fun o =>
    match o with
    | none => true
    | some r => decide (r.nameWithOwner ∉ excludeRepos))

/-- The names of the present repository nodes, in order. -/
def repoNames (rs : List (Option Repository)) : List String :=
  rs.filterMap (fun o => o.map (fun r => r.nameWithOwner))

theorem foldl_processRepo_eq_counted (eR eL : List String) :
    ∀ (rs : List (Option Repository)) (st : StatsState),
      rs.foldl (processRepo eR eL) st =
        (countedRepos eR st.repos rs).foldl (addRepo eL) st := by
  intro rs
  induction rs with
  | nil => intro st; rfl
  | cons o rest ih =>
    intro st
    cases o with
    | none => simpa [processRepo, countedRepos] using ih st
    | some r =>
      by_cases hg : r.nameWithOwner ∈ st.repos ∨ r.nameWithOwner ∈ eR
      · simp [processRepo, countedRepos, hg, ih st]
      · have hrepos : (addRepo eL st r).repos = st.repos ++ [r.nameWithOwner] := rfl
        simp only [processRepo, countedRepos, if_neg hg, List.foldl_cons]
        rw [ih (addRepo eL st r), hrepos]

theorem foldl_processRepo_dropExcluded (eR eL : List String) :
    ∀ (rs : List (Option Repository)) (st : StatsState),
      rs.foldl (processRepo eR eL) st =
        (dropExcluded eR rs).foldl (processRepo eR eL) st := by
  intro rs
  induction rs with
  | nil => intro st; rfl
  | cons o rest ih =>
    intro st
    cases o with
    | none => simpa [dropExcluded, processRepo] using ih st
    | some r =>
      by_cases hx : r.nameWithOwner ∈ eR
      · have hskip : processRepo eR eL st (some r) = st := by
          simp [processRepo, hx]
        simp [dropExcluded, hx, List.foldl_cons, hskip, ih st]
      · simp [dropExcluded, hx, List.foldl_cons, ih (processRepo eR eL st (some r))]

theorem countedRepos_of_nodup :
    ∀ (rs : List (Option Repository)) (seen : List String),
      (repoNames rs).Nodup → (∀ n ∈ repoNames rs, n ∉ seen) →
      countedRepos [] seen rs = rs.filterMap id := by
  intro rs
  induction rs with
  | nil => intro seen _ _; rfl
  | cons o rest ih =>
    intro seen hnd hseen
    cases o with
    | none =>
      have hnd' : (repoNames rest).Nodup := by simpa [repoNames] using hnd
      have hseen' : ∀ n ∈ repoNames rest, n ∉ seen := by
        intro n hn; exact hseen n (by simpa [repoNames] using hn)
      simpa [countedRepos] using ih seen hnd' hseen'
    | some r =>
      have hmem : r.nameWithOwner ∉ seen :=
        hseen r.nameWithOwner (by simp [repoNames])
      have hnd0 : r.nameWithOwner ∉ repoNames rest ∧ (repoNames rest).Nodup := by
        simpa [repoNames] using hnd
      have hseen' : ∀ n ∈ repoNames rest, n ∉ seen ++ [r.nameWithOwner] := by
        intro n hn
        simp only [List.mem_append, List.mem_singleton]
        rintro (h | rfl)
        · exact hseen n (by simpa [repoNames] using Or.inr hn) h
        · exact hnd0.1 hn
      have := ih (seen ++ [r.nameWithOwner]) hnd0.2 hseen'
      simp [countedRepos, hmem, this, List.filterMap]

theorem foldl_addRepo_repos (eL : List String) :
    ∀ (l : List Repository) (st : StatsState),
      (l.foldl (addRepo eL) st).repos =
        st.repos ++ l.map (fun r => r.nameWithOwner) := by
  intro l
  induction l with
  | nil => intro st; simp
  | cons r rest ih =>
    intro st
    rw [List.foldl_cons, ih (addRepo eL st r),
      show (addRepo eL st r).repos = st.repos ++ [r.nameWithOwner] from rfl,
      List.append_assoc]
    rfl

/-- C6: over any sequence of repository pages, (i) page boundaries are
irrelevant (processing page by page equals processing the concatenation);
(ii) the aggregate equals the unguarded accumulation of exactly the first
occurrence of each non-excluded repository, so each name contributes to the
star, fork, language and repository aggregates at most once; (iii) repositories
whose name is in the exclusion set contribute nothing (removing them from
the input leaves the whole aggregate unchanged); (iv) the final repository
set is exactly the first-occurrence list of non-excluded names; and (v) with
no exclusions, N distinct names yield a repository set of exactly N members. -/
theorem getStats_dedup_exclusion (eR eL : List String)
    (pages : List (List (Option Repository))) :
    (pages.foldl (fun st page => page.foldl (processRepo eR eL) st) initStats =
      pages.flatten.foldl (processRepo eR eL) initStats) ∧
    (pages.flatten.foldl (processRepo eR eL) initStats =
      (countedRepos eR [] pages.flatten).foldl (addRepo eL) initStats) ∧
    (pages.flatten.foldl (processRepo eR eL) initStats =
      (dropExcluded eR pages.flatten).foldl (processRepo eR eL) initStats) ∧
    ((pages.flatten.foldl (processRepo eR eL) initStats).repos =
      (countedRepos eR [] pages.flatten).map (fun r => r.nameWithOwner)) ∧
    ((repoNames pages.flatten).Nodup →
      (pages.flatten.foldl (processRepo [] eL) initStats).repos.length =
        (repoNames pages.flatten).length) := by
  refine ⟨?_, ?_, ?_, ?_, ?_⟩
  · rw [List.foldl_flatten]
  · simpa using foldl_processRepo_eq_counted eR eL pages.flatten initStats
  · exact foldl_processRepo_dropExcluded eR eL pages.flatten initStats
  · rw [foldl_processRepo_eq_counted eR eL pages.flatten initStats]
    simpa [initStats] using
      foldl_addRepo_repos eL (countedRepos eR [] pages.flatten) initStats
  · intro hnd
    rw [foldl_processRepo_eq_counted [] eL pages.flatten initStats]
    have hc := countedRepos_of_nodup pages.flatten [] hnd (by simp)
    rw [foldl_addRepo_repos eL]
    simp only [initStats, List.nil_append, List.length_map]
    rw [show countedRepos [] ([] : List String) pages.flatten = pages.flatten.filterMap id from hc]
    have hmap : (pages.flatten.filterMap id).map (fun r => r.nameWithOwner) =
        repoNames pages.flatten := by
      rw [List.map_filterMap]
      simp [repoNames]
    calc (pages.flatten.filterMap id).length
        = ((pages.flatten.filterMap id).map (fun r => r.nameWithOwner)).length := by
          rw [List.length_map]
      _ = (repoNames pages.flatten).length := by rw [hmap]

/-! ## The proportion phase of `getStats` (lines 491-501) -/

/-- JS division as used in the proportion phase: a zero denominator yields a
non-finite value (for `getStats` always `0/0`, i.e. NaN, since the
denominator is the sum of the numerators), otherwise the exact quotient. -/
def jsDiv (a b : ℚ) : JSNum :=
  if b = 0 then none else some (a / b)

/-- `langsTotal` (lines 493-496): the reduce of `v.size || 0` over the
language record. -/
def langsTotalSize (langs : List (String × LanguageData)) : Nat :=
  (langs.map (fun p => p.2.size)).sum

/-- The proportion loop (lines 497-500): each entry's `prop` becomes
`100 * ((v.size || 0) / langsTotal)`. -/
def computeProps (langs : List (String × LanguageData)) :
    List (String × LanguageData) :=
  langs.map (fun p =>
    (p.1, { p.2 with
            prop := some ((jsDiv (p.2.size : ℚ) (langsTotalSize langs : ℚ)).map
              (fun q => 100 * q)) }))

/-- JS addition extended to non-finite values: NaN propagates. -/
def jsAdd (a b : JSNum) : JSNum :=
  match a, b with
  | some x, some y => some (x + y)
  | _, _ => none

/-- The sum of the `prop` fields of a language record (an absent `prop`
counts as non-finite). -/
def propsSum (langs : List (String × LanguageData)) : JSNum :=
  (langs.map (fun p => p.2.prop.getD none)).foldr jsAdd (some 0)

/-! ## C10: unnamed language edges -/

/-- A repository whose single language edge has no node at all (size 7). -/
def unnamedEdgeRepo : Repository :=
  ⟨"u/a", some 0, some 0, some [⟨some 7, none⟩]⟩

/-- C10: a language edge whose node is missing, or whose node has a missing
or empty name, is processed exactly like an edge named by the literal
`'Other'` — accumulated into the aggregate, and dropped precisely when
`"other"` is in the lowered language exclusion set.  Concretely, a
repository with one unnamed edge of size 7 yields an `'Other'` entry of size
7 and occurrence count 1 that also enters the percentage denominator, and
the entry is dropped when the exclusion set contains `"other"`. -/
theorem unnamed_language_counted_as_Other :
    (∀ (eL : List String) (langs : List (String × LanguageData)) (sz : Option Nat),
      processLang eL langs ⟨sz, none⟩ =
        processLang eL langs ⟨sz, some ⟨some "Other", none⟩⟩) ∧
    (∀ (eL : List String) (langs : List (String × LanguageData)) (sz : Option Nat)
        (c : Option String),
      processLang eL langs ⟨sz, some ⟨none, c⟩⟩ =
        processLang eL langs ⟨sz, some ⟨some "Other", c⟩⟩) ∧
    (∀ (eL : List String) (langs : List (String × LanguageData)) (sz : Option Nat)
        (c : Option String),
      processLang eL langs ⟨sz, some ⟨some "", c⟩⟩ =
        processLang eL langs ⟨sz, some ⟨some "Other", c⟩⟩) ∧
    ((processRepo [] [] initStats (some unnamedEdgeRepo)).languages =
      [("Other", ⟨7, 1, none, none⟩)]) ∧
    (langsTotalSize (processRepo [] [] initStats (some unnamedEdgeRepo)).languages = 7) ∧
    ((processRepo [] ["other"] initStats (some unnamedEdgeRepo)).languages = []) := by
  refine ⟨?_, ?_, ?_, by decide, by decide, by decide⟩
  · intro eL langs sz; rfl
  · intro eL langs sz c; rfl
  · intro eL langs sz c; rfl

/-! ## C7: the percentage sum -/

/-- The language record produced by aggregating a repository whose single
language has byte size 0: a non-empty retained language set whose total
retained size is zero. -/
def zeroTotalLangs : List (String × LanguageData) :=
  (processRepo [] [] initStats
    (some ⟨"u/zero", some 0, some 0, some [⟨some 0, some ⟨some "X", none⟩⟩]⟩)).languages

/-- C7 counterexample: for the non-empty retained language set whose total
byte size is zero, every `prop` is `100 * (0 / 0)`, a NaN, so the prop sum
is non-finite and in particular not within `1e-6` of 100 — the claim fails
on sets with zero total size. -/
theorem propsSum_nan_at_zero_total :
    zeroTotalLangs ≠ [] ∧
    propsSum (computeProps zeroTotalLangs) = none ∧
    ¬ ∃ s : ℚ, propsSum (computeProps zeroTotalLangs) = some s ∧
      |s - 100| ≤ 1 / 1000000 := by
  refine ⟨by decide, by decide, ?_⟩
  rintro ⟨s, hs, -⟩
  rw [show propsSum (computeProps zeroTotalLangs) = none from by decide] at hs
  exact Option.noConfusion hs

theorem foldr_jsAdd_map_some (l : List ℚ) :
    (l.map some).foldr jsAdd (some 0) = some l.sum := by
  induction l with
  | nil => rfl
  | cons x xs ih => simp [jsAdd, ih, List.sum_cons]

/-- C7 amended: after the proportion phase, for every non-empty retained
language set whose total retained byte size is positive, the per-language
percentages `100 * size / total` sum to exactly 100 (in particular within
`1e-6`); sets whose total size is zero instead produce NaN percentages. -/
theorem propsSum_eq_100_of_pos_total (langs : List (String × LanguageData))
    (_hne : langs ≠ []) (hpos : langsTotalSize langs ≠ 0) :
    ∃ s : ℚ, propsSum (computeProps langs) = some s ∧ |s - 100| ≤ 1 / 1000000 := by
  have hT : ((langsTotalSize langs : ℚ)) ≠ 0 := by
    exact_mod_cast hpos
  refine ⟨100, ?_, by norm_num⟩
  have hmap : (computeProps langs).map (fun p => p.2.prop.getD none) =
      (langs.map (fun p => 100 * ((p.2.size : ℚ) / (langsTotalSize langs : ℚ)))).map some := by
    rw [computeProps, List.map_map, List.map_map]
    congr 1
    funext p
    simp [Function.comp, jsDiv, hT]
  rw [propsSum, hmap, foldr_jsAdd_map_some]
  congr 1
  have h1 : (fun p : String × LanguageData =>
      100 * ((p.2.size : ℚ) / (langsTotalSize langs : ℚ))) =
      (fun p : String × LanguageData =>
      (100 / (langsTotalSize langs : ℚ)) * (p.2.size : ℚ)) := by
    funext p
    rw [div_mul_eq_mul_div, mul_div_assoc]
  rw [h1, List.sum_map_mul_left]
  have h2 : (langs.map (fun p : String × LanguageData => (p.2.size : ℚ))).sum =
      ((langsTotalSize langs : ℚ)) := by
    rw [langsTotalSize]
    rw [Nat.cast_list_sum, List.map_map]
    rfl
  rw [h2, div_mul_cancel₀]
  exact hT

/-- Concrete instantiation of `propsSum_eq_100_of_pos_total` on a two
language record of sizes 150 and 50. -/
theorem propsSum_eq_100_of_pos_total_witness :
    ∃ s : ℚ, propsSum (computeProps
      [("TS", ⟨150, 1, none, none⟩), ("JS", ⟨50, 1, none, none⟩)]) = some s ∧
      |s - 100| ≤ 1 / 1000000 :=
  propsSum_eq_100_of_pos_total
    [("TS", ⟨150, 1, none, none⟩), ("JS", ⟨50, 1, none, none⟩)]
    (by decide) (by decide)

/-! ## The `getStats` pagination loop (lines 427-489)

Responses are modelled down to `rawResults.data?.viewer` (the two levels of
optional chaining collapse to one `Option`).  The environment supplies the
successive responses in order; once they run out, further queries receive an
absent viewer, which makes both `hasNextPage` reads default to `false` and
ends the loop. -/

/-- `pageInfo` of a page source. -/
structure PageInfo where
  hasNextPage : Option Bool
  endCursor : Option String
  deriving Repr, DecidableEq

/-- One page source (`repositories` or `repositoriesContributedTo`). -/
structure RepoSource where
  pageInfo : Option PageInfo
  nodes : Option (List (Option Repository))
  deriving Repr, DecidableEq

/-- `data?.viewer` of a reposOverview response. -/
structure Viewer where
  login : Option String
  name : Option String
  repositories : Option RepoSource
  repositoriesContributedTo : Option RepoSource
  deriving Repr, DecidableEq

/-- The two pagination cursors spliced into the GraphQL document built by
`Queries.reposOverview(contribCursor, ownedCursor)` (lines 252-329):
`ownedAfter` is the `after:` argument of `repositories`, taken from the
second parameter `ownedCursor`; `contribAfter` is the `after:` argument of
`repositoriesContributedTo`, taken from the first parameter `contribCursor`. -/
structure ReposQuery where
  ownedAfter : Option String
  contribAfter : Option String
  deriving Repr, DecidableEq

def reposOverview (contribCursor ownedCursor : Option String) : ReposQuery :=
  ⟨ownedCursor, contribCursor⟩

/-- State carried by the `while (hasMorePages)` loop of `getStats`, plus the
ghost log `requests` of the queries issued so far. -/
structure LoopState where
  requests : List ReposQuery
  nextOwned : Option String
  nextContrib : Option String
  nameField : Option String
  agg : StatsState
  hasMore : Bool
  deriving Repr, DecidableEq

/-- One iteration of the loop (lines 431-489), consuming the response to the
query it issues.  The query is built exactly as at lines 432-434:
`Queries.reposOverview(nextOwned, nextContrib)`, passing `nextOwned` as the
first (`contribCursor`) parameter and `nextContrib` as the second
(`ownedCursor`) parameter.  `_name` is assigned `name || login || 'No Name'`
(lines 436-439); the owned nodes are processed, followed by the
contributed-to nodes unless `ignoreForkedRepos` is set or they are absent
(lines 444-447); the loop continues while either source reports another
page, and each cursor keeps its previous value when the new `endCursor` is
falsy (lines 482-488). -/
def getStatsStep (excludeRepos excludeLangsLower : List String)
    (ignoreForkedRepos : Bool) (s : LoopState) (viewer : Option Viewer) :
    LoopState :=
  let req := reposOverview s.nextOwned s.nextContrib
  let nameVal := jsOrStr (viewer.bind (fun v => v.name))
    (jsOrStr (viewer.bind (fun v => v.login)) "No Name")
  let contribRepos := viewer.bind (fun v => v.repositoriesContributedTo)
  let ownedRepos := viewer.bind (fun v => v.repositories)
  let repos := (ownedRepos.bind (fun r => r.nodes)).getD [] ++
    (if ¬ignoreForkedRepos ∧ (contribRepos.bind (fun r => r.nodes)).isSome then
      (contribRepos.bind (fun r => r.nodes)).getD []
    else [])
  let agg := repos.foldl (processRepo excludeRepos excludeLangsLower) s.agg
  let hasMore :=
    ((ownedRepos.bind (fun r => r.pageInfo)).bind (fun pi => pi.hasNextPage)).getD false ||
    ((contribRepos.bind (fun r => r.pageInfo)).bind (fun pi => pi.hasNextPage)).getD false
  let nextOwned :=
    if hasMore then
      jsOrCursor ((ownedRepos.bind (fun r => r.pageInfo)).bind (fun pi => pi.endCursor))
        s.nextOwned
    else s.nextOwned
  let nextContrib :=
    if hasMore then
      jsOrCursor ((contribRepos.bind (fun r => r.pageInfo)).bind (fun pi => pi.endCursor))
        s.nextContrib
    else s.nextContrib
  ⟨s.requests ++ [req], nextOwned, nextContrib, some nameVal, agg, hasMore⟩

/-- The loop itself: it runs at least one iteration (`hasMorePages` starts
`true`) and then iterates while `hasMorePages`; an exhausted response list
supplies an absent viewer, after which `hasMorePages` is necessarily false. -/
def getStatsLoop (eR eL : List String) (ig : Bool) :
    List (Option Viewer) → LoopState → LoopState
  | [], s => getStatsStep eR eL ig s none
  | v :: rest, s =>
    let s' := getStatsStep eR eL ig s v
    if s'.hasMore then getStatsLoop eR eL ig rest s' else s'

/-- Loop state at the top of `getStats` (lines 417-429): fresh aggregate,
both cursors `null`, `hasMorePages = true`, no queries issued yet. -/
def initLoop : LoopState := ⟨[], none, none, none, initStats, true⟩

/-- A full `getStats` pagination pass over the given responses. -/
def getStatsRun (eR eL : List String) (ig : Bool)
    (responses : List (Option Viewer)) : LoopState :=
  getStatsLoop eR eL ig responses initLoop

/-- A first-page response in which the owned source reports another page
with end cursor `"O1"` and the contributed-to source reports end cursor
`"C1"` with no further page. -/
def swapViewer : Viewer :=
  { login := some "u"
    name := some "U"
    repositories := some ⟨some ⟨some true, some "O1"⟩, some []⟩
    repositoriesContributedTo := some ⟨some ⟨some false, some "C1"⟩, some []⟩ }

/-- C3 failing run: after a first page whose owned end cursor is `"O1"` and
whose contributed-to end cursor is `"C1"`, the second query ends up with
`after: "C1"` on the owned source and `after: "O1"` on the contributed-to
source — `getStats` passes `(nextOwned, nextContrib)` positionally into
`reposOverview(contribCursor, ownedCursor)`, so each source is paginated
with the other source's cursor. -/
theorem getStats_swaps_pagination_cursors :
    (getStatsRun [] [] false [some swapViewer]).requests =
      [⟨none, none⟩, ⟨some "C1", some "O1"⟩] ∧
    ((getStatsRun [] [] false [some swapViewer]).requests.getD 1 ⟨none, none⟩).ownedAfter
      ≠ some "O1" := by
  exact ⟨by decide, by decide⟩

/-! ## The Stats accessors (lines 368-659)

Each accessor is modelled as one atomic step on the instance's nullable
cache fields, returning the value (or a thrown `Error`), the new cache, and
the number of network requests the step issued. -/

/-- One element of `weeks` in a `/stats/contributors` payload. -/
structure RestWeek where
  a : Option Nat
  d : Option Nat
  deriving Repr, DecidableEq

/-- The `author` object of a contributor entry. -/
structure RestAuthor where
  login : Option String
  deriving Repr, DecidableEq

/-- One contributor entry of a `/stats/contributors` payload; `author = none`
models a missing or non-object author, skipped at lines 616-624. -/
structure ContributorEntry where
  author : Option RestAuthor
  weeks : Option (List RestWeek)
  deriving Repr, DecidableEq

/-- The network environment a `Stats` instance runs against: the successive
reposOverview responses, the decoded payloads of the two contribution
queries, and the decoded REST payloads per repository name. -/
structure Env where
  reposPages : List (Option Viewer)
  contribYears : List Int
  contribTotals : List (Option Nat)
  contributorStats : String → List ContributorEntry
  viewCounts : String → List (Option Nat)

/-- Constructor arguments of `Stats` (lines 384-396). -/
structure StatsConfig where
  username : String
  excludeRepos : List String
  excludeLangs : List String
  ignoreForkedRepos : Bool

/-- The nullable memoization fields of a `Stats` instance (lines 375-382). -/
structure StatsCache where
  name : Option String
  stargazers : Option Nat
  forks : Option Nat
  totalContributions : Option Nat
  languages : Option (List (String × LanguageData))
  repos : Option (List String)
  linesChanged : Option (Nat × Nat)
  views : Option Nat
  deriving Repr, DecidableEq

/-- All fields start `null` (lines 375-382). -/
def initCache : StatsCache := ⟨none, none, none, none, none, none, none, none⟩

/-- The effect of one `getStats()` call on the cache: run the pagination
pass with the language exclusion set lowered (lines 423-425), then store
`_name`, `_stargazers`, `_forks`, `_languages` with the proportion phase
applied (lines 491-501), and `_repos`. -/
def applyStats (cfg : StatsConfig) (env : Env) (c : StatsCache) : StatsCache :=
  let out := getStatsRun cfg.excludeRepos (cfg.excludeLangs.map lowerStr)
    cfg.ignoreForkedRepos env.reposPages
  { c with name := out.nameField
           stargazers := some out.agg.stargazers
           forks := some out.agg.forks
           languages := some (computeProps out.agg.languages)
           repos := some out.agg.repos }

/-- Number of GraphQL queries issued by one `getStats()` call. -/
def statsNetCount (cfg : StatsConfig) (env : Env) : Nat :=
  (getStatsRun cfg.excludeRepos (cfg.excludeLangs.map lowerStr)
    cfg.ignoreForkedRepos env.reposPages).requests.length

/-- `getTotalContributions` computation (lines 579-597): sum of
`contributionCalendar?.totalContributions || 0` over the values of the
combined per-year query's viewer object. -/
def computeTotalContributions (env : Env) : Nat :=
  (env.contribTotals.map (fun o => o.getD 0)).sum

/-- `getLinesChanged` computation (lines 605-638): for each repository's
contributor entries, skip entries with a missing author, keep those whose
`author?.login || ''` equals the configured username, and sum
`week.a || 0` and `week.d || 0` over `weeks || []`. -/
def computeLinesChanged (username : String) (env : Env) (repos : List String) :
    Nat × Nat :=
  repos.foldl (fun acc repo =>
    (env.contributorStats repo).foldl (fun acc2 entry =>
      match entry.author with
      | none => acc2
      | some au =>
        if jsOrStr au.login "" = username then
          (entry.weeks.getD []).foldl
            (fun a2 w => (a2.1 + w.a.getD 0, a2.2 + w.d.getD 0)) acc2
        else acc2) acc) (0, 0)

/-- `getViews` computation (lines 641-659): sum `view.count || 0` over each
repository's `views || []`. -/
def computeViews (env : Env) (repos : List String) : Nat :=
  repos.foldl (fun total repo =>
    total + ((env.viewCounts repo).map (fun o => o.getD 0)).sum) 0

/-- The public accessors of `Stats`. -/
inductive Accessor where
  | getName
  | getStargazers
  | getForks
  | getLanguages
  | getLanguagesProportional
  | getRepos
  | getTotalContributions
  | getLinesChanged
  | getViews
  deriving Repr, DecidableEq

/-- A value returned by an accessor. -/
inductive AccValue where
  | str (s : String)
  | nat (n : Nat)
  | langs (l : List (String × LanguageData))
  | props (l : List (String × ℚ))
  | names (l : List String)
  | pair (p : Nat × Nat)
  deriving Repr, DecidableEq

/-- The outcome of an accessor call: a returned value or a thrown `Error`. -/
inductive AccResult where
  | ok (v : AccValue)
  | err (msg : String)
  deriving Repr, DecidableEq

/-- JS `v.prop || 0` (line 558): an absent `prop`, a NaN and a zero all
yield 0. -/
def jsPropOr0 (p : Option JSNum) : ℚ :=
  match p with
  | some (some q) => q
  | _ => 0

/-- The record built by `getLanguagesProportional` (lines 556-560). -/
def propsOf (l : List (String × LanguageData)) : List (String × ℚ) :=
  l.map (fun p => (p.1, jsPropOr0 p.2.prop))

/-- `await this.getRepos()` as performed inside `getLinesChanged` and
`getViews`: the cached repository set, or the set left by a fresh
`getStats` pass. -/
def reposOf (cfg : StatsConfig) (env : Env) (c : StatsCache) :
    Option (List String) × StatsCache × Nat :=
  match c.repos with
  | some v => (some v, c, 0)
  | none =>
    let c' := applyStats cfg env c
    (c'.repos, c', statsNetCount cfg env)

/-- One accessor call (lines 504-659): return the cached field if it is
non-null; otherwise perform the underlying computation, store the result,
and return it.  The `err` constructors model the `throw new Error(...)`
null-checks. -/
def runAccessor (cfg : StatsConfig) (env : Env) (c : StatsCache) :
    Accessor → AccResult × StatsCache × Nat
  | .getName =>
    match c.name with
    | some v => (.ok (.str v), c, 0)
    | none =>
      let c' := applyStats cfg env c
      match c'.name with
      | some v => (.ok (.str v), c', statsNetCount cfg env)
      | none => (.err "Name is null after getStats", c', statsNetCount cfg env)
  | .getStargazers =>
    match c.stargazers with
    | some v => (.ok (.nat v), c, 0)
    | none =>
      let c' := applyStats cfg env c
      match c'.stargazers with
      | some v => (.ok (.nat v), c', statsNetCount cfg env)
      | none => (.err "Stargazers is null after getStats", c', statsNetCount cfg env)
  | .getForks =>
    match c.forks with
    | some v => (.ok (.nat v), c, 0)
    | none =>
      let c' := applyStats cfg env c
      match c'.forks with
      | some v => (.ok (.nat v), c', statsNetCount cfg env)
      | none => (.err "Forks is null after getStats", c', statsNetCount cfg env)
  | .getLanguages =>
    match c.languages with
    | some v => (.ok (.langs v), c, 0)
    | none =>
      let c' := applyStats cfg env c
      match c'.languages with
      | some v => (.ok (.langs v), c', statsNetCount cfg env)
      | none => (.err "Languages is null after getStats", c', statsNetCount cfg env)
  | .getLanguagesProportional =>
    match c.languages with
    | some v => (.ok (.props (propsOf v)), c, 0)
    | none =>
      let c' := applyStats cfg env c
      match c'.languages with
      | some v => (.ok (.props (propsOf v)), c', statsNetCount cfg env)
      | none => (.err "Languages is null after getStats", c', statsNetCount cfg env)
  | .getRepos =>
    match c.repos with
    | some v => (.ok (.names v), c, 0)
    | none =>
      let c' := applyStats cfg env c
      match c'.repos with
      | some v => (.ok (.names v), c', statsNetCount cfg env)
      | none => (.err "Repos is null after getStats", c', statsNetCount cfg env)
  | .getTotalContributions =>
    match c.totalContributions with
    | some v => (.ok (.nat v), c, 0)
    | none =>
      let t := computeTotalContributions env
      (.ok (.nat t), { c with totalContributions := some t }, 2)
  | .getLinesChanged =>
    match c.linesChanged with
    | some v => (.ok (.pair v), c, 0)
    | none =>
      match reposOf cfg env c with
      | (some repos, c1, net) =>
        let lc := computeLinesChanged cfg.username env repos
        (.ok (.pair lc), { c1 with linesChanged := some lc }, net + repos.length)
      | (none, c1, net) => (.err "Repos is null after getStats", c1, net)
  | .getViews =>
    match c.views with
    | some v => (.ok (.nat v), c, 0)
    | none =>
      match reposOf cfg env c with
      | (some repos, c1, net) =>
        let t := computeViews env repos
        (.ok (.nat t), { c1 with views := some t }, net + repos.length)
      | (none, c1, net) => (.err "Repos is null after getStats", c1, net)

/-- Run a sequence of accessor calls from the freshly constructed instance. -/
def runAccessors (cfg : StatsConfig) (env : Env) (calls : List Accessor) :
    StatsCache :=
  calls.foldl (fun st a => (runAccessor cfg env st a).2.1) initCache

/-- The stored value an accessor returns on a cache hit. -/
def accField (c : StatsCache) : Accessor → Option AccValue
  | .getName => c.name.map AccValue.str
  | .getStargazers => c.stargazers.map AccValue.nat
  | .getForks => c.forks.map AccValue.nat
  | .getLanguages => c.languages.map AccValue.langs
  | .getLanguagesProportional => c.languages.map (fun v => AccValue.props (propsOf v))
  | .getRepos => c.repos.map AccValue.names
  | .getTotalContributions => c.totalContributions.map AccValue.nat
  | .getLinesChanged => c.linesChanged.map AccValue.pair
  | .getViews => c.views.map AccValue.nat

/-- Pointwise persistence of cache fields: every field set in `c` is still
set, to the same value, in `c'`. -/
def cacheLE (c c' : StatsCache) : Prop :=
  (∀ v, c.name = some v → c'.name = some v) ∧
  (∀ v, c.stargazers = some v → c'.stargazers = some v) ∧
  (∀ v, c.forks = some v → c'.forks = some v) ∧
  (∀ v, c.totalContributions = some v → c'.totalContributions = some v) ∧
  (∀ v, c.languages = some v → c'.languages = some v) ∧
  (∀ v, c.repos = some v → c'.repos = some v) ∧
  (∀ v, c.linesChanged = some v → c'.linesChanged = some v) ∧
  (∀ v, c.views = some v → c'.views = some v)

/-- Invariant of reachable caches: the five `getStats`-backed fields are
unset together or set together (every `getStats` pass sets all five at
once, and nothing else touches them). -/
def statsSync (c : StatsCache) : Prop :=
  (c.name = none ∧ c.stargazers = none ∧ c.forks = none ∧
    c.languages = none ∧ c.repos = none) ∨
  (c.name ≠ none ∧ c.stargazers ≠ none ∧ c.forks ≠ none ∧
    c.languages ≠ none ∧ c.repos ≠ none)

theorem getStatsLoop_nameField_isSome (eR eL : List String) (ig : Bool) :
    ∀ (rs : List (Option Viewer)) (s : LoopState),
      (getStatsLoop eR eL ig rs s).nameField.isSome := by
  intro rs
  induction rs with
  | nil => intro s; rfl
  | cons v rest ih =>
    intro s
    by_cases h : (getStatsStep eR eL ig s v).hasMore
    · simp only [getStatsLoop, h, if_true]
      exact ih _
    · simp only [getStatsLoop, h, if_false]
      rfl

theorem applyStats_name_isSome (cfg : StatsConfig) (env : Env) (c : StatsCache) :
    (applyStats cfg env c).name.isSome :=
  getStatsLoop_nameField_isSome cfg.excludeRepos (cfg.excludeLangs.map lowerStr)
    cfg.ignoreForkedRepos env.reposPages initLoop

theorem cacheLE_refl (c : StatsCache) : cacheLE c c := by
  refine ⟨?_, ?_, ?_, ?_, ?_, ?_, ?_, ?_⟩ <;> intro v hv <;> exact hv

theorem cacheLE_applyStats (cfg : StatsConfig) (env : Env) (c : StatsCache)
    (h1 : c.name = none) (h2 : c.stargazers = none) (h3 : c.forks = none)
    (h4 : c.languages = none) (h5 : c.repos = none) :
    cacheLE c (applyStats cfg env c) := by
  refine ⟨?_, ?_, ?_, ?_, ?_, ?_, ?_, ?_⟩ <;> intro v hv
  · rw [h1] at hv; exact absurd hv (by simp)
  · rw [h2] at hv; exact absurd hv (by simp)
  · rw [h3] at hv; exact absurd hv (by simp)
  · exact hv
  · rw [h4] at hv; exact absurd hv (by simp)
  · rw [h5] at hv; exact absurd hv (by simp)
  · exact hv
  · exact hv

theorem statsSync_applyStats (cfg : StatsConfig) (env : Env) (c : StatsCache) :
    statsSync (applyStats cfg env c) := by
  right
  refine ⟨Option.isSome_iff_ne_none.mp (applyStats_name_isSome cfg env c),
    ?_, ?_, ?_, ?_⟩ <;> simp [applyStats]

theorem statsSync_all_none (c : StatsCache) (hs : statsSync c) (h : c.name = none) :
    c.stargazers = none ∧ c.forks = none ∧ c.languages = none ∧ c.repos = none := by
  rcases hs with ⟨-, h2, h3, h4, h5⟩ | ⟨h1, -, -, -, -⟩
  · exact ⟨h2, h3, h4, h5⟩
  · exact absurd h h1

theorem statsSync_all_none_of_stargazers (c : StatsCache) (hs : statsSync c)
    (h : c.stargazers = none) :
    c.name = none ∧ c.forks = none ∧ c.languages = none ∧ c.repos = none := by
  rcases hs with ⟨h1, -, h3, h4, h5⟩ | ⟨-, h2, -, -, -⟩
  · exact ⟨h1, h3, h4, h5⟩
  · exact absurd h h2

theorem statsSync_all_none_of_forks (c : StatsCache) (hs : statsSync c)
    (h : c.forks = none) :
    c.name = none ∧ c.stargazers = none ∧ c.languages = none ∧ c.repos = none := by
  rcases hs with ⟨h1, h2, -, h4, h5⟩ | ⟨-, -, h3, -, -⟩
  · exact ⟨h1, h2, h4, h5⟩
  · exact absurd h h3

theorem statsSync_all_none_of_languages (c : StatsCache) (hs : statsSync c)
    (h : c.languages = none) :
    c.name = none ∧ c.stargazers = none ∧ c.forks = none ∧ c.repos = none := by
  rcases hs with ⟨h1, h2, h3, -, h5⟩ | ⟨-, -, -, h4, -⟩
  · exact ⟨h1, h2, h3, h5⟩
  · exact absurd h h4

theorem statsSync_all_none_of_repos (c : StatsCache) (hs : statsSync c)
    (h : c.repos = none) :
    c.name = none ∧ c.stargazers = none ∧ c.forks = none ∧ c.languages = none := by
  rcases hs with ⟨h1, h2, h3, h4, -⟩ | ⟨-, -, -, -, h5⟩
  · exact ⟨h1, h2, h3, h4⟩
  · exact absurd h h5

theorem applyStats_repos (cfg : StatsConfig) (env : Env) (c : StatsCache) :
    (applyStats cfg env c).repos =
      some ((getStatsRun cfg.excludeRepos (cfg.excludeLangs.map lowerStr)
        cfg.ignoreForkedRepos env.reposPages).agg.repos) := rfl

theorem cacheLE_set_linesChanged (c c' : StatsCache) (lc : Nat × Nat)
    (h : cacheLE c c') (hnone : c.linesChanged = none) :
    cacheLE c { c' with linesChanged := some lc } := by
  obtain ⟨b1, b2, b3, b4, b5, b6, b7, b8⟩ := h
  refine ⟨b1, b2, b3, b4, b5, b6, ?_, b8⟩
  intro v hv
  rw [hnone] at hv
  exact absurd hv (by simp)

theorem cacheLE_set_views (c c' : StatsCache) (t : Nat)
    (h : cacheLE c c') (hnone : c.views = none) :
    cacheLE c { c' with views := some t } := by
  obtain ⟨b1, b2, b3, b4, b5, b6, b7, b8⟩ := h
  refine ⟨b1, b2, b3, b4, b5, b6, b7, ?_⟩
  intro v hv
  rw [hnone] at hv
  exact absurd hv (by simp)

theorem statsSync_set_linesChanged (c' : StatsCache) (lc : Nat × Nat)
    (h : statsSync c') : statsSync { c' with linesChanged := some lc } := h

theorem statsSync_set_views (c' : StatsCache) (t : Nat)
    (h : statsSync c') : statsSync { c' with views := some t } := h

theorem runAccessor_step_sound (cfg : StatsConfig) (env : Env) (c : StatsCache)
    (hs : statsSync c) (a : Accessor) :
    cacheLE c (runAccessor cfg env c a).2.1 ∧
      statsSync (runAccessor cfg env c a).2.1 := by
  cases a with
  | getName =>
    cases hc : c.name with
    | some v =>
      simpa only [runAccessor, hc] using ⟨cacheLE_refl c, hs⟩
    | none =>
      obtain ⟨h2, h3, h4, h5⟩ := statsSync_all_none c hs hc
      have hpost : (runAccessor cfg env c Accessor.getName).2.1 = applyStats cfg env c := by
        simp only [runAccessor, hc]
        cases hname : (applyStats cfg env c).name <;> simp
      rw [hpost]
      exact ⟨cacheLE_applyStats cfg env c hc h2 h3 h4 h5, statsSync_applyStats cfg env c⟩
  | getStargazers =>
    cases hc : c.stargazers with
    | some v =>
      simpa only [runAccessor, hc] using ⟨cacheLE_refl c, hs⟩
    | none =>
      obtain ⟨h1, h3, h4, h5⟩ := statsSync_all_none_of_stargazers c hs hc
      have hpost : (runAccessor cfg env c Accessor.getStargazers).2.1 =
          applyStats cfg env c := by
        simp only [runAccessor, hc]
        split <;> rfl
      rw [hpost]
      exact ⟨cacheLE_applyStats cfg env c h1 hc h3 h4 h5, statsSync_applyStats cfg env c⟩
  | getForks =>
    cases hc : c.forks with
    | some v =>
      simpa only [runAccessor, hc] using ⟨cacheLE_refl c, hs⟩
    | none =>
      obtain ⟨h1, h2, h4, h5⟩ := statsSync_all_none_of_forks c hs hc
      have hpost : (runAccessor cfg env c Accessor.getForks).2.1 =
          applyStats cfg env c := by
        simp only [runAccessor, hc]
        split <;> rfl
      rw [hpost]
      exact ⟨cacheLE_applyStats cfg env c h1 h2 hc h4 h5, statsSync_applyStats cfg env c⟩
  | getLanguages =>
    cases hc : c.languages with
    | some v =>
      simpa only [runAccessor, hc] using ⟨cacheLE_refl c, hs⟩
    | none =>
      obtain ⟨h1, h2, h3, h5⟩ := statsSync_all_none_of_languages c hs hc
      have hpost : (runAccessor cfg env c Accessor.getLanguages).2.1 =
          applyStats cfg env c := by
        simp only [runAccessor, hc]
        split <;> rfl
      rw [hpost]
      exact ⟨cacheLE_applyStats cfg env c h1 h2 h3 hc h5, statsSync_applyStats cfg env c⟩
  | getLanguagesProportional =>
    cases hc : c.languages with
    | some v =>
      simpa only [runAccessor, hc] using ⟨cacheLE_refl c, hs⟩
    | none =>
      obtain ⟨h1, h2, h3, h5⟩ := statsSync_all_none_of_languages c hs hc
      have hpost : (runAccessor cfg env c Accessor.getLanguagesProportional).2.1 =
          applyStats cfg env c := by
        simp only [runAccessor, hc]
        split <;> rfl
      rw [hpost]
      exact ⟨cacheLE_applyStats cfg env c h1 h2 h3 hc h5, statsSync_applyStats cfg env c⟩
  | getRepos =>
    cases hc : c.repos with
    | some v =>
      simpa only [runAccessor, hc] using ⟨cacheLE_refl c, hs⟩
    | none =>
      obtain ⟨h1, h2, h3, h4⟩ := statsSync_all_none_of_repos c hs hc
      have hpost : (runAccessor cfg env c Accessor.getRepos).2.1 =
          applyStats cfg env c := by
        simp only [runAccessor, hc]
        split <;> rfl
      rw [hpost]
      exact ⟨cacheLE_applyStats cfg env c h1 h2 h3 h4 hc, statsSync_applyStats cfg env c⟩
  | getTotalContributions =>
    cases hc : c.totalContributions with
    | some v =>
      simpa only [runAccessor, hc] using ⟨cacheLE_refl c, hs⟩
    | none =>
      have hpost : (runAccessor cfg env c Accessor.getTotalContributions).2.1 =
          { c with totalContributions := some (computeTotalContributions env) } := by
        simp only [runAccessor, hc]
      rw [hpost]
      constructor
      · refine ⟨?_, ?_, ?_, ?_, ?_, ?_, ?_, ?_⟩ <;> intro v hv <;>
          first
          | exact hv
          | (rw [hc] at hv; exact absurd hv (by simp))
      · rcases hs with ⟨h1, h2, h3, h4, h5⟩ | ⟨h1, h2, h3, h4, h5⟩
        · exact Or.inl ⟨h1, h2, h3, h4, h5⟩
        · exact Or.inr ⟨h1, h2, h3, h4, h5⟩
  | getLinesChanged =>
    cases hc : c.linesChanged with
    | some v =>
      simpa only [runAccessor, hc] using ⟨cacheLE_refl c, hs⟩
    | none =>
      cases hr : c.repos with
      | some r =>
        have hpost : (runAccessor cfg env c Accessor.getLinesChanged).2.1 =
            { c with linesChanged := some (computeLinesChanged cfg.username env r) } := by
          simp only [runAccessor, hc, reposOf, hr]
        rw [hpost]
        constructor
        · refine ⟨?_, ?_, ?_, ?_, ?_, ?_, ?_, ?_⟩ <;> intro v hv <;>
            first
            | exact hv
            | (rw [hc] at hv; exact absurd hv (by simp))
        · rcases hs with ⟨h1, h2, h3, h4, h5⟩ | ⟨h1, h2, h3, h4, h5⟩
          · exact Or.inl ⟨h1, h2, h3, h4, h5⟩
          · exact Or.inr ⟨h1, h2, h3, h4, h5⟩
      | none =>
        obtain ⟨h1, h2, h3, h4⟩ := statsSync_all_none_of_repos c hs hr
        obtain ⟨lc, hpost⟩ :
            ∃ lc, (runAccessor cfg env c Accessor.getLinesChanged).2.1 =
              { applyStats cfg env c with linesChanged := some lc } := by
          refine ⟨computeLinesChanged cfg.username env
            ((getStatsRun cfg.excludeRepos (cfg.excludeLangs.map lowerStr)
              cfg.ignoreForkedRepos env.reposPages).agg.repos), ?_⟩
          simp only [runAccessor, hc, reposOf, hr, applyStats_repos]
        rw [hpost]
        exact ⟨cacheLE_set_linesChanged c (applyStats cfg env c) lc
            (cacheLE_applyStats cfg env c h1 h2 h3 h4 hr) hc,
          statsSync_set_linesChanged (applyStats cfg env c) lc
            (statsSync_applyStats cfg env c)⟩
  | getViews =>
    cases hc : c.views with
    | some v =>
      simpa only [runAccessor, hc] using ⟨cacheLE_refl c, hs⟩
    | none =>
      cases hr : c.repos with
      | some r =>
        have hpost : (runAccessor cfg env c Accessor.getViews).2.1 =
            { c with views := some (computeViews env r) } := by
          simp only [runAccessor, hc, reposOf, hr]
        rw [hpost]
        constructor
        · refine ⟨?_, ?_, ?_, ?_, ?_, ?_, ?_, ?_⟩ <;> intro v hv <;>
            first
            | exact hv
            | (rw [hc] at hv; exact absurd hv (by simp))
        · rcases hs with ⟨h1, h2, h3, h4, h5⟩ | ⟨h1, h2, h3, h4, h5⟩
          · exact Or.inl ⟨h1, h2, h3, h4, h5⟩
          · exact Or.inr ⟨h1, h2, h3, h4, h5⟩
      | none =>
        obtain ⟨h1, h2, h3, h4⟩ := statsSync_all_none_of_repos c hs hr
        obtain ⟨t, hpost⟩ :
            ∃ t, (runAccessor cfg env c Accessor.getViews).2.1 =
              { applyStats cfg env c with views := some t } := by
          refine ⟨computeViews env
            ((getStatsRun cfg.excludeRepos (cfg.excludeLangs.map lowerStr)
              cfg.ignoreForkedRepos env.reposPages).agg.repos), ?_⟩
          simp only [runAccessor, hc, reposOf, hr, applyStats_repos]
        rw [hpost]
        exact ⟨cacheLE_set_views c (applyStats cfg env c) t
            (cacheLE_applyStats cfg env c h1 h2 h3 h4 hr) hc,
          statsSync_set_views (applyStats cfg env c) t
            (statsSync_applyStats cfg env c)⟩

theorem statsSync_runAccessors (cfg : StatsConfig) (env : Env)
    (calls : List Accessor) : statsSync (runAccessors cfg env calls) := by
  have main : ∀ (cs : List Accessor) (c : StatsCache), statsSync c →
      statsSync (cs.foldl (fun st a => (runAccessor cfg env st a).2.1) c) := by
    intro cs
    induction cs with
    | nil => intro c h; exact h
    | cons a rest ih =>
      intro c h
      exact ih _ (runAccessor_step_sound cfg env c h a).2
  exact main calls initCache (Or.inl ⟨rfl, rfl, rfl, rfl, rfl⟩)

theorem runAccessor_hit (cfg : StatsConfig) (env : Env) (c : StatsCache)
    (a : Accessor) (v : AccValue) (h : accField c a = some v) :
    runAccessor cfg env c a = (.ok v, c, 0) := by
  cases a with
  | getName =>
    cases hc : c.name with
    | none => rw [accField, hc] at h; exact absurd h (by simp)
    | some s =>
      rw [accField, hc] at h
      simp only [Option.map_some'] at h
      rw [← Option.some_inj.mp h]
      simp [runAccessor, hc]
  | getStargazers =>
    cases hc : c.stargazers with
    | none => rw [accField, hc] at h; exact absurd h (by simp)
    | some s =>
      rw [accField, hc] at h
      simp only [Option.map_some'] at h
      rw [← Option.some_inj.mp h]
      simp [runAccessor, hc]
  | getForks =>
    cases hc : c.forks with
    | none => rw [accField, hc] at h; exact absurd h (by simp)
    | some s =>
      rw [accField, hc] at h
      simp only [Option.map_some'] at h
      rw [← Option.some_inj.mp h]
      simp [runAccessor, hc]
  | getLanguages =>
    cases hc : c.languages with
    | none => rw [accField, hc] at h; exact absurd h (by simp)
    | some s =>
      rw [accField, hc] at h
      simp only [Option.map_some'] at h
      rw [← Option.some_inj.mp h]
      simp [runAccessor, hc]
  | getLanguagesProportional =>
    cases hc : c.languages with
    | none => rw [accField, hc] at h; exact absurd h (by simp)
    | some s =>
      rw [accField, hc] at h
      simp only [Option.map_some'] at h
      rw [← Option.some_inj.mp h]
      simp [runAccessor, hc]
  | getRepos =>
    cases hc : c.repos with
    | none => rw [accField, hc] at h; exact absurd h (by simp)
    | some s =>
      rw [accField, hc] at h
      simp only [Option.map_some'] at h
      rw [← Option.some_inj.mp h]
      simp [runAccessor, hc]
  | getTotalContributions =>
    cases hc : c.totalContributions with
    | none => rw [accField, hc] at h; exact absurd h (by simp)
    | some s =>
      rw [accField, hc] at h
      simp only [Option.map_some'] at h
      rw [← Option.some_inj.mp h]
      simp [runAccessor, hc]
  | getLinesChanged =>
    cases hc : c.linesChanged with
    | none => rw [accField, hc] at h; exact absurd h (by simp)
    | some s =>
      rw [accField, hc] at h
      simp only [Option.map_some'] at h
      rw [← Option.some_inj.mp h]
      simp [runAccessor, hc]
  | getViews =>
    cases hc : c.views with
    | none => rw [accField, hc] at h; exact absurd h (by simp)
    | some s =>
      rw [accField, hc] at h
      simp only [Option.map_some'] at h
      rw [← Option.some_inj.mp h]
      simp [runAccessor, hc]

theorem runAccessor_miss_stores (cfg : StatsConfig) (env : Env) (c : StatsCache)
    (a : Accessor) (h : accField c a = none) :
    accField (runAccessor cfg env c a).2.1 a ≠ none := by
  cases a with
  | getName =>
    have hc : c.name = none := by
      rw [accField] at h; exact Option.map_eq_none'.mp h
    have hpost : (runAccessor cfg env c Accessor.getName).2.1 =
        applyStats cfg env c := by
      simp only [runAccessor, hc]
      split <;> rfl
    rw [hpost, accField]
    have := applyStats_name_isSome cfg env c
    obtain ⟨s, hy⟩ := Option.isSome_iff_exists.mp this
    rw [hy]
    simp
  | getStargazers =>
    have hc : c.stargazers = none := by
      rw [accField] at h; exact Option.map_eq_none'.mp h
    have hpost : (runAccessor cfg env c Accessor.getStargazers).2.1 =
        applyStats cfg env c := by
      simp only [runAccessor, hc]
      split <;> rfl
    rw [hpost, accField]
    simp [applyStats]
  | getForks =>
    have hc : c.forks = none := by
      rw [accField] at h; exact Option.map_eq_none'.mp h
    have hpost : (runAccessor cfg env c Accessor.getForks).2.1 =
        applyStats cfg env c := by
      simp only [runAccessor, hc]
      split <;> rfl
    rw [hpost, accField]
    simp [applyStats]
  | getLanguages =>
    have hc : c.languages = none := by
      rw [accField] at h; exact Option.map_eq_none'.mp h
    have hpost : (runAccessor cfg env c Accessor.getLanguages).2.1 =
        applyStats cfg env c := by
      simp only [runAccessor, hc]
      split <;> rfl
    rw [hpost, accField]
    simp [applyStats]
  | getLanguagesProportional =>
    have hc : c.languages = none := by
      rw [accField] at h; exact Option.map_eq_none'.mp h
    have hpost : (runAccessor cfg env c Accessor.getLanguagesProportional).2.1 =
        applyStats cfg env c := by
      simp only [runAccessor, hc]
      split <;> rfl
    rw [hpost, accField]
    simp [applyStats]
  | getRepos =>
    have hc : c.repos = none := by
      rw [accField] at h; exact Option.map_eq_none'.mp h
    have hpost : (runAccessor cfg env c Accessor.getRepos).2.1 =
        applyStats cfg env c := by
      simp only [runAccessor, hc]
      split <;> rfl
    rw [hpost, accField]
    simp [applyStats]
  | getTotalContributions =>
    have hc : c.totalContributions = none := by
      rw [accField] at h; exact Option.map_eq_none'.mp h
    have hpost : (runAccessor cfg env c Accessor.getTotalContributions).2.1 =
        { c with totalContributions := some (computeTotalContributions env) } := by
      simp only [runAccessor, hc]
    rw [hpost, accField]
    simp
  | getLinesChanged =>
    have hc : c.linesChanged = none := by
      rw [accField] at h; exact Option.map_eq_none'.mp h
    cases hr : c.repos with
    | some r =>
      have hpost : (runAccessor cfg env c Accessor.getLinesChanged).2.1 =
          { c with linesChanged := some (computeLinesChanged cfg.username env r) } := by
        simp only [runAccessor, hc, reposOf, hr]
      rw [hpost, accField]
      simp
    | none =>
      obtain ⟨lc, hpost⟩ :
          ∃ lc, (runAccessor cfg env c Accessor.getLinesChanged).2.1 =
            { applyStats cfg env c with linesChanged := some lc } := by
        refine ⟨computeLinesChanged cfg.username env
          ((getStatsRun cfg.excludeRepos (cfg.excludeLangs.map lowerStr)
            cfg.ignoreForkedRepos env.reposPages).agg.repos), ?_⟩
        simp only [runAccessor, hc, reposOf, hr, applyStats_repos]
      rw [hpost, accField]
      simp
  | getViews =>
    have hc : c.views = none := by
      rw [accField] at h; exact Option.map_eq_none'.mp h
    cases hr : c.repos with
    | some r =>
      have hpost : (runAccessor cfg env c Accessor.getViews).2.1 =
          { c with views := some (computeViews env r) } := by
        simp only [runAccessor, hc, reposOf, hr]
      rw [hpost, accField]
      simp
    | none =>
      obtain ⟨t, hpost⟩ :
          ∃ t, (runAccessor cfg env c Accessor.getViews).2.1 =
            { applyStats cfg env c with views := some t } := by
        refine ⟨computeViews env
          ((getStatsRun cfg.excludeRepos (cfg.excludeLangs.map lowerStr)
            cfg.ignoreForkedRepos env.reposPages).agg.repos), ?_⟩
        simp only [runAccessor, hc, reposOf, hr, applyStats_repos]
      rw [hpost, accField]
      simp

/-- C8: each accessor is a write-once memoization.  For any environment and
any sequence of prior accessor calls from a fresh instance, letting `c` be
the reached cache: (i) an accessor whose backing field is set returns the
stored value, leaves the cache untouched and issues zero network requests;
(ii) an accessor whose backing field is unset performs its computation and
leaves the field set; (iii) every field set in `c` survives any further
accessor call unchanged — no field, once non-null, is recomputed or reset. -/
theorem stats_accessors_memoize (cfg : StatsConfig) (env : Env)
    (calls : List Accessor) (a : Accessor) :
    (∀ v, accField (runAccessors cfg env calls) a = some v →
      runAccessor cfg env (runAccessors cfg env calls) a =
        (.ok v, runAccessors cfg env calls, 0)) ∧
    (accField (runAccessors cfg env calls) a = none →
      accField (runAccessor cfg env (runAccessors cfg env calls) a).2.1 a ≠ none) ∧
    cacheLE (runAccessors cfg env calls)
      (runAccessor cfg env (runAccessors cfg env calls) a).2.1 :=
  ⟨fun v hv => runAccessor_hit cfg env (runAccessors cfg env calls) a v hv,
   fun h => runAccessor_miss_stores cfg env (runAccessors cfg env calls) a h,
   (runAccessor_step_sound cfg env (runAccessors cfg env calls)
     (statsSync_runAccessors cfg env calls) a).1⟩

/-! ## Concrete instantiations -/

/-- Two owned repository nodes with 5 and 3 stars. -/
def wNodes : List (Option Repository) :=
  [some ⟨"u/a", some 5, some 1, some []⟩, some ⟨"u/b", some 3, some 0, some []⟩]

/-- A single-page viewer carrying the two owned repositories. -/
def wViewer : Viewer :=
  { login := some "u"
    name := some "U"
    repositories := some ⟨some ⟨some false, none⟩, some wNodes⟩
    repositoriesContributedTo := none }

def wEnv : Env :=
  ⟨[some wViewer], [], [some 10, some 25], fun _ => [], fun _ => []⟩

def wCfg : StatsConfig := ⟨"u", [], [], false⟩

/-- Concrete instantiation of `stats_accessors_memoize`: after a first
`getName` call (which runs the aggregation pass and stores all five stats
fields), `getStargazers` finds its field cached (5 + 3 = 8), returns it,
leaves the cache unchanged, and issues zero network requests. -/
theorem stats_accessors_memoize_witness :
    runAccessor wCfg wEnv (runAccessors wCfg wEnv [Accessor.getName])
      Accessor.getStargazers =
      (AccResult.ok (AccValue.nat 8), runAccessors wCfg wEnv [Accessor.getName], 0) :=
  (stats_accessors_memoize wCfg wEnv [Accessor.getName] Accessor.getStargazers).1
    (AccValue.nat 8) (by decide)

/-- The response shape most favourable to C9's claim: one page with no
viewer object at all, so neither a display name nor a login is present. -/
def emptyEnv : Env := ⟨[none], [], [], fun _ => [], fun _ => []⟩

def emptyCfg : StatsConfig := ⟨"u", [], [], false⟩

/-- C9 counterexample: even on a response carrying no name and no login, the
aggregation pass completes with the fallback `'No Name'` (line 436) and
`getName` returns it — the accessor does not raise on this shape. -/
theorem getName_defaults_instead_of_raising :
    (runAccessor emptyCfg emptyEnv initCache Accessor.getName).1 =
      AccResult.ok (AccValue.str "No Name") := by
  decide

/-- C9 amended: `getName` never raises.  After any aggregation pass the name
field is set (line 436 always assigns `name || login || 'No Name'`), so on
every environment and cache `getName` returns a string and the
`Name is null after getStats` check at lines 509-511 is unreachable. -/
theorem getName_never_raises (cfg : StatsConfig) (env : Env) (c : StatsCache) :
    ∃ s : String, (runAccessor cfg env c Accessor.getName).1 =
      AccResult.ok (AccValue.str s) := by
  cases hc : c.name with
  | some v => exact ⟨v, by simp [runAccessor, hc]⟩
  | none =>
    obtain ⟨s, hy⟩ := Option.isSome_iff_exists.mp (applyStats_name_isSome cfg env c)
    refine ⟨s, ?_⟩
    simp only [runAccessor, hc, hy]

/-- Concrete instantiation of `getName_never_raises`. -/
theorem getName_never_raises_witness :
    ∃ s : String, (runAccessor wCfg wEnv initCache Accessor.getName).1 =
      AccResult.ok (AccValue.str s) :=
  getName_never_raises wCfg wEnv initCache

/-- Two pages holding one distinct repository each. -/
def wPageA : List (Option Repository) := [some ⟨"u/a", some 5, some 1, some []⟩]

def wPageB : List (Option Repository) := [some ⟨"u/b", some 3, some 0, some []⟩]

/-- Concrete instantiation of the distinct-names clause of
`getStats_dedup_exclusion`: two pages with one distinct repository each
yield a repository set of exactly two members. -/
theorem getStats_dedup_exclusion_witness :
    (([wPageA, wPageB] : List (List (Option Repository))).flatten.foldl
      (processRepo [] []) initStats).repos.length = 2 := by
  have h := (getStats_dedup_exclusion [] [] [wPageA, wPageB]).2.2.2.2 (by decide)
  exact h.trans (by decide)

/-- Concrete instantiation of `unnamed_language_counted_as_Other`. -/
theorem unnamed_language_counted_as_Other_witness :
    processLang ["x"] [] ⟨some 7, none⟩ =
      processLang ["x"] [] ⟨some 7, some ⟨some "Other", none⟩⟩ :=
  unnamed_language_counted_as_Other.1 ["x"] [] (some 7)

end GithubStats
